import Mathlib

/-!
Shallow embedding of `src/model/cluster_tree_knn.py` (class `ClusterTreeKNN`,
methods `fit`, `predict`, `_predict`).

Conventions of the embedding:

* Sample coordinates live in an arbitrary linearly ordered commutative ring
  `α` (floating-point values form an ordered subfield of the reals as far as
  the source's arithmetic on them is concerned; only `+`, `-`, `*` and order
  comparisons are applied to coordinates). Concrete scenarios instantiate
  `α := ℤ`.
* NumPy float arrays become `List α` (vectors) and `List (List α)` (matrices).
* Every Euclidean distance computed by the source (`np.linalg.norm`,
  `scipy` pairwise distances) is represented by its *square*.
  Every use the source makes of a distance is a comparison of one distance
  against another distance (argmax / argsort / min / `<` / `<=`), and squaring
  is strictly monotone on nonnegative reals, so all comparisons are preserved
  and every branch taken by the embedding is the branch taken by the source.
  The stored `gamma_d` therefore holds the squared purity radius and is only
  ever compared with squared distances, exactly mirroring the source.
* Class labels and cluster-mask values become `ℕ`.
* Python exceptions (assertion failures, `UnboundLocalError`, NumPy/sklearn
  shape errors) become `Except` errors.
* `sklearn.cluster.DBSCAN` is an external library, not code of this
  repository; the condensation loop takes the clustering as an explicit
  function parameter `db` receiving exactly the arguments the source passes
  (`eps`, `min_samples`, the data matrix). The `eps`/threshold values keep
  the source's own scale (they are never compared with an embedded squared
  distance: that comparison happens inside the external DBSCAN).
* The loop guards (`iter = iter + 1; assert(iter < self._max_iter)` with
  `_max_iter = 100`) are modelled by fuel `99`: the source completes at most
  99 iterations; on the 100th the body runs and then the assert aborts, which
  the embedding renders as `Except.error .maxIter`.
-/

variable {α : Type} [LinearOrderedCommRing α]

/-- Squared Euclidean norm of a vector. -/
def sqNorm (v : List α) : α := (v.map (fun a => a * a)).sum

/-- Componentwise difference of two vectors (`zipWith`, as NumPy broadcasting
of two equal-length 1-D arrays). -/
def qsub (a b : List α) : List α := List.zipWith (fun x z => x - z) a b

/-- Squared distance between row `i` and row `j` of the pooled matrix:
entry `dissimilarities[i][j]` of the source's pairwise matrix. -/
def dissQ (rows : List (List α)) (i j : ℕ) : α :=
  sqNorm (qsub (rows.getD i []) (rows.getD j []))

/-- `np.argmax`: index of the first occurrence of the maximum. Auxiliary
carrying the position `i` of the head of the unscanned suffix, the best index
`bi` so far and its value `bv`. -/
def npArgmaxAux [LinearOrder β] : List β → ℕ → ℕ → β → ℕ
  | [], _, bi, _ => bi
  | x :: xs, i, bi, bv =>
    if bv < x then npArgmaxAux xs (i + 1) i x else npArgmaxAux xs (i + 1) bi bv

/-- `np.argmax` over a list; `0` on the empty list (NumPy raises there; the
embedding never applies it to an empty list on a reachable path). -/
def npArgmax [LinearOrder β] : List β → ℕ
  | [] => 0
  | x :: xs => npArgmaxAux xs 1 0 x

/-- `.min()` of a NumPy array; the default on the empty list (NumPy raises
there; unreachable: in the multi-class branch the selection is nonempty). -/
def npMin (l : List α) : α := l.foldl min (l.headD 0)

/-- Insert index `i` into an index list sorted by key `l.getD · 0`, keeping
earlier indices first among equal keys. -/
def insIdx (l : List α) (i : ℕ) : List ℕ → List ℕ
  | [] => [i]
  | j :: js => if l.getD j 0 < l.getD i 0 then j :: insIdx l i js else i :: j :: js

/-- `argsort` of a list of keys: the permutation of `[0, …, n-1]` listing
indices in nondecreasing key order, ties broken by index. -/
def argsortQ (l : List α) : List ℕ := (List.range l.length).foldr (insIdx l) []

/-- Insertion step for sorting naturals ascending. -/
def insNat (a : ℕ) : List ℕ → List ℕ
  | [] => [a]
  | b :: bs => if b ≤ a then b :: insNat a bs else a :: b :: bs

/-- Sort a list of naturals ascending. -/
def sortNat (l : List ℕ) : List ℕ := l.foldr insNat []

/-- `np.unique`: sorted list of the distinct values. -/
def npUnique (l : List ℕ) : List ℕ := (sortNat l).dedup

/-- `BottomLevelCluster` (dtos/bottom_level_cluster): id, sample matrix,
label vector, optional centroid. -/
structure BLC (α : Type) where
  id : ℕ
  data : List (List α)
  labels : List ℕ
  centroid : Option (List α)
deriving DecidableEq

/-- `HyperLevelCluster` (dtos/hyper_level_cluster): id, representative point,
the representative's label, squared purity radius `gamma_d`, children added
by `add_child`. -/
structure HLC (α : Type) where
  id : ℕ
  data : List α
  label : ℕ
  gamma_d : α
  children : List (BLC α)
deriving DecidableEq

/-- Data stored in an `UpperLevelCluster`: either a single representative row
(core-point node) or a whole matrix (merge/collapse node). -/
inductive PData (α : Type) where
  | vec (v : List α)
  | mat (m : List (List α))

/-- A node of the current `Plevel`: a `HyperLevelCluster` or an
`UpperLevelCluster` with its children. -/
inductive PNode (α : Type) where
  | h (c : HLC α)
  | u (id : ℕ) (data : PData α) (children : List (PNode α))

/-- Constant inputs of `fit`: the constructor arguments `clusters_masks` and
`centroids` plus the training data `X`, `y`. -/
structure FitCtx (α : Type) where
  clusters_masks : List ℕ
  centroids : List (List α)
  X : List (List α)
  y : List ℕ

/-- Mutable state of the hyper-level extraction loop of `fit`:
`remaining_clusters_labels`, the growing `Blevel` and `Hlevel`, and the
binding state of the local variable `gamma_d` (`none` before its first
assignment, modelling Python's unbound local). -/
structure ExtractState (α : Type) where
  remaining : List ℕ
  Blevel : List (BLC α)
  Hlevel : List (HLC α)
  gammaPrev : Option (List α)

/-- Errors of `fit`: a failed `assert`, reading the unbound local `gamma_d`,
and the `iter < self._max_iter` guard firing. -/
inductive FitErr where
  | assertFail
  | unboundLocal
  | maxIter
deriving DecidableEq

/-- Row indices of the current pool: positions whose mask value is still in
`remaining_clusters_labels` (`np.isin(self.clusters_masks, remaining)`). -/
def poolIdx (ctx : FitCtx α) (st : ExtractState α) : List ℕ :=
  (List.range ctx.clusters_masks.length).filter
    (fun i => decide ((ctx.clusters_masks.getD i 0) ∈ st.remaining))

/-- `_X`: the pooled sample rows. -/
def poolX (ctx : FitCtx α) (st : ExtractState α) : List (List α) :=
  (poolIdx ctx st).map (fun i => ctx.X.getD i [])

/-- `_y`: the pooled labels. -/
def poolY (ctx : FitCtx α) (st : ExtractState α) : List ℕ :=
  (poolIdx ctx st).map (fun i => ctx.y.getD i 0)

/-- `_clusters_masks`: the pooled mask values. -/
def poolMasks (ctx : FitCtx α) (st : ExtractState α) : List ℕ :=
  (poolIdx ctx st).map (fun i => ctx.clusters_masks.getD i 0)

/-- The source's `most_dissimilars`: for each position `i` of
`remaining_clusters_labels` it reads `self.Blevel[i]` and `self.centroids[i]`
— indexing the *original* arrays by the position in the current remaining
list, exactly as the source line
`self.Blevel[i].data[np.linalg.norm(self.Blevel[i].data - self.centroids[i], axis=1).argmax()]`
does — and takes the row farthest from that centroid (first maximum). -/
def mostDissimilars (ctx : FitCtx α) (st : ExtractState α) : List (List α) :=
  (List.range st.remaining.length).map (fun i =>
    let b := st.Blevel.getD i ⟨0, [], [], none⟩
    b.data.getD (npArgmax (b.data.map (fun r => sqNorm (qsub r (ctx.centroids.getD i []))))) [])

/-- `np.where((_X == m).all(axis=1))[0]` head: index of the first element
equal to `m`, if any. -/
def npFirstMatch {β : Type} [DecidableEq β] (m : β) : List β → Option ℕ
  | [] => none
  | x :: xs => if x = m then some 0 else (npFirstMatch m xs).map (fun i => i + 1)

/-- `most_dissimilars_indexes`: for each most-dissimilar point, the first row
of `_X` equal to it, defaulting to `0` when there is no match
(`dist[0] if len(dist) > 0 else 0`). -/
def mdIndexes [DecidableEq α] (ctx : FitCtx α) (st : ExtractState α) : List ℕ :=
  (mostDissimilars ctx st).map (fun m => (npFirstMatch m (poolX ctx st)).getD 0)

/-- Indices of `psi_d` for a candidate with most-dissimilar row index `i`:
pooled rows with the same label as row `i` and squared distance to row `i`
strictly below the candidate's `gamma_d`. -/
def psiIdx (Xl : List (List α)) (yl : List ℕ) (i : ℕ) (g : α) : List ℕ :=
  (List.range Xl.length).filter
    (fun j => decide (yl.getD j 0 = yl.getD i 0) && decide (dissQ Xl i j < g))

/-- `gamma_d` of the multi-class branch: for each most-dissimilar row index
`i`, the minimum squared distance from row `i` to any pooled row with a
different label (`dissimilarities[i][_y[i] != _y].min()`). -/
def multiGammas [DecidableEq α] (ctx : FitCtx α) (st : ExtractState α) : List α :=
  (mdIndexes ctx st).map (fun i =>
    npMin (((List.range (poolX ctx st).length).filter
      (fun j => decide (¬ (poolY ctx st).getD j 0 = (poolY ctx st).getD i 0))).map
        (fun j => dissQ (poolX ctx st) i j)))

/-- `new_hyper_node_index = lambda_d.argmax()`: first index of the largest
`psi_d`. -/
def multiW [DecidableEq α] (ctx : FitCtx α) (st : ExtractState α) : ℕ :=
  npArgmax ((List.range (mostDissimilars ctx st).length).map
    (fun k => (psiIdx (poolX ctx st) (poolY ctx st) ((mdIndexes ctx st).getD k 0)
      ((multiGammas ctx st).getD k 0)).length))

/-- `most_dissimilars_indexes[new_hyper_node_index]`: pooled row index of the
winning most-dissimilar sample. -/
def multiIw [DecidableEq α] (ctx : FitCtx α) (st : ExtractState α) : ℕ :=
  (mdIndexes ctx st).getD (multiW ctx st) 0

/-- The new `BottomLevelCluster` of the multi-class branch: exactly
`psi_d[new_hyper_node_index]`'s rows and labels, no centroid. -/
def multiNewB [DecidableEq α] (ctx : FitCtx α) (st : ExtractState α) : BLC α :=
  let pIdx := psiIdx (poolX ctx st) (poolY ctx st) (multiIw ctx st)
    ((multiGammas ctx st).getD (multiW ctx st) 0)
  ⟨st.Blevel.length, pIdx.map (fun j => (poolX ctx st).getD j []),
    pIdx.map (fun j => (poolY ctx st).getD j 0), none⟩

/-- The new `HyperLevelCluster` of the multi-class branch: the winning
most-dissimilar point, its pooled label, its `gamma_d`, and the new bottom
cluster as sole child. -/
def multiNewH [DecidableEq α] (ctx : FitCtx α) (st : ExtractState α) : HLC α :=
  ⟨st.Hlevel.length, (mostDissimilars ctx st).getD (multiW ctx st) [],
    (poolY ctx st).getD (multiIw ctx st) 0,
    (multiGammas ctx st).getD (multiW ctx st) 0, [multiNewB ctx st]⟩

/-- `cluster_to_be_removed = _clusters_masks[most_dissimilars_indexes[new_hyper_node_index]]`. -/
def multiCtbr [DecidableEq α] (ctx : FitCtx α) (st : ExtractState α) : ℕ :=
  (poolMasks ctx st).getD (multiIw ctx st) 0

/-- The multi-class branch of the extraction loop (`np.unique(_y).shape[0] > 1`):
compute `gamma_d`, `psi_d`, `lambda_d`, pick the first maximum of `lambda_d`,
append the new hyper node and its single bottom-level child, and remove the
originating cluster's mask value from the remaining list
(`remaining_clusters_labels.remove(...)` deletes the first occurrence). -/
def multiStep [DecidableEq α] (ctx : FitCtx α) (st : ExtractState α) : ExtractState α :=
  { remaining := st.remaining.erase (multiCtbr ctx st)
    Blevel := st.Blevel ++ [multiNewB ctx st]
    Hlevel := st.Hlevel ++ [multiNewH ctx st]
    gammaPrev := some (multiGammas ctx st) }

/-- The single-class branch of the extraction loop: one hyper node wrapping
`most_dissimilars[0]` with label `_y[0]` and the stale `gamma_d[0]` (`g` is
the value the local `gamma_d` was left holding), one bottom-level child
holding the whole current pool, and `remaining_clusters_labels.pop()`,
which removes only the *last* identifier. -/
def singleStep (ctx : FitCtx α) (st : ExtractState α) (g : List α) : ExtractState α :=
  let newB : BLC α := ⟨st.Blevel.length, poolX ctx st, poolY ctx st, none⟩
  let newH : HLC α := ⟨st.Hlevel.length, (mostDissimilars ctx st).getD 0 [],
    (poolY ctx st).getD 0 0, g.getD 0 0, [newB]⟩
  { remaining := st.remaining.dropLast
    Blevel := st.Blevel ++ [newB]
    Hlevel := st.Hlevel ++ [newH]
    gammaPrev := some g }

/-- One iteration of the extraction loop body: the two asserts
(`most_dissimilars.shape[0] > 0`, `_X.shape[0] > 0`), then the branch on
`np.unique(_y).shape[0] > 1`; the single-class branch reads the local
`gamma_d`, which is an `UnboundLocalError` if no multi-class iteration has
assigned it yet. -/
def extractStep [DecidableEq α] (ctx : FitCtx α) (st : ExtractState α) :
    Except FitErr (ExtractState α) :=
  if st.remaining = [] then .error .assertFail
  else if poolX ctx st = [] then .error .assertFail
  else if (poolY ctx st).dedup.length > 1 then .ok (multiStep ctx st)
  else
    match st.gammaPrev with
    | none => .error .unboundLocal
    | some g => .ok (singleStep ctx st g)

/-- The extraction `while` loop with fuel: with fuel exhausted the body still
runs once and then the `assert(iter < self._max_iter)` aborts. -/
def extractLoop [DecidableEq α] (ctx : FitCtx α) :
    ℕ → ExtractState α → Except FitErr (ExtractState α)
  | fuel, st =>
    if st.remaining = [] then .ok st
    else
      match fuel with
      | 0 => extractStep ctx st >>= fun _ => .error .maxIter
      | f + 1 => extractStep ctx st >>= extractLoop ctx f

/-- Result of the external `sklearn.cluster.DBSCAN` call: its `labels_` and
`core_sample_indices_`. -/
structure DbRes where
  labels : List ℤ
  cores : List ℕ
deriving DecidableEq

/-- `cluster.data` of a `Plevel` node as a single row, as read by
`np.array([cluster.data for cluster in self.Plevel])`. Matrix-valued upper
nodes (merge/collapse nodes) only ever exist as a singleton level, where the
loop has already exited, so the `.mat` case is unreachable there (NumPy
would build a ragged object array). -/
def pnodeVec : PNode α → List α
  | .h c => c.data
  | .u _ (.vec v) _ => v
  | .u _ (.mat m) _ => m.headD []

/-- One iteration body of the upper-level condensation loop of `fit`.
With exactly two nodes, a single merge node. Otherwise DBSCAN is run with
`eps = self.initial_hyperlevel_threshold` — the *constructor parameter*, not
the running `hyperlevel_threshold` local — and
`min_samples = max 3 (int(0.2 * n))`; if it found more than one label and
not every point is a core point, one new node per core point, each with the
*entire* previous level as children; otherwise one collapse node. -/
def condenseStep (eps0 : ℚ) (db : ℚ → ℕ → List (List α) → DbRes)
    (P : List (PNode α)) : List (PNode α) :=
  let hd := P.map pnodeVec
  if hd.length = 2 then
    [.u P.length (.mat hd) P]
  else
    let n := hd.length
    let ms := max 3 (n / 5)
    let res := db eps0 ms hd
    if res.labels.dedup.length > 1 ∧ res.cores.length < n then
      res.cores.enum.map (fun p => .u p.1 (.vec (hd.getD p.2 [])) P)
    else
      [.u P.length (.mat hd) P]

/-- The condensation `while len(self.Plevel) != 1` loop, threading the local
`hyperlevel_threshold` (`thr`), which the body increments by `0.5` but never
reads; fuel as in `extractLoop`. -/
def condenseLoop (eps0 : ℚ) (db : ℚ → ℕ → List (List α) → DbRes) :
    ℕ → List (PNode α) → ℚ → Except FitErr (List (PNode α))
  | fuel, P, thr =>
    if P.length = 1 then .ok P
    else
      match fuel with
      | 0 => .error .maxIter
      | f + 1 => condenseLoop eps0 db f (condenseStep eps0 db P) (thr + 1/2)

/-- The fitted index: `self.Blevel`, `self.Hlevel`, `self.Plevel` after `fit`
returns. -/
structure FitResult (α : Type) where
  Blevel : List (BLC α)
  Hlevel : List (HLC α)
  Plevel : List (PNode α)

/-- Initial state of the extraction loop: `remaining_clusters_labels` from
`np.unique(self.clusters_masks)`, and one seeded `BottomLevelCluster` per
distinct mask value with the rows assigned to it and `self.centroids[i]`. -/
def initState (ctx : FitCtx α) : ExtractState α :=
  let rem := npUnique ctx.clusters_masks
  { remaining := rem
    Blevel := rem.enum.map (fun p =>
      ⟨p.1,
       ((List.range ctx.clusters_masks.length).filter
         (fun i => decide (ctx.clusters_masks.getD i 0 = p.2))).map (fun i => ctx.X.getD i []),
       ((List.range ctx.clusters_masks.length).filter
         (fun i => decide (ctx.clusters_masks.getD i 0 = p.2))).map (fun i => ctx.y.getD i 0),
       some (ctx.centroids.getD p.1 [])⟩)
    Hlevel := []
    gammaPrev := none }

/-- `ClusterTreeKNN.fit`: seed the bottom level, run the extraction loop,
check `assert(len(self.Hlevel) > 0)`, then run the condensation loop with
`hyperlevel_threshold` starting at `initial_hyperlevel_threshold` (`eps0`). -/
def fit [DecidableEq α] (ctx : FitCtx α) (eps0 : ℚ)
    (db : ℚ → ℕ → List (List α) → DbRes) : Except FitErr (FitResult α) := do
  let st ← extractLoop ctx 99 (initState ctx)
  if st.Hlevel = [] then .error .assertFail
  else do
    let P ← condenseLoop eps0 db 99 (st.Hlevel.map PNode.h) eps0
    .ok ⟨st.Blevel, st.Hlevel, P⟩

/-- Errors of `predict`/`_predict`: a failed assert, the iteration guard,
`AttributeError` (reading `gamma_d` on a non-hyper node), `ValueError` from
`np.concatenate([])`, the sklearn shape error for a 3-D k-NN query, and the
degenerate empty batch (whose NumPy behavior no claim exercises). -/
inductive PErr where
  | assertFail
  | maxIter
  | attrErr
  | concatErr
  | badShape
  | emptyInput
deriving DecidableEq

/-- A sample as `_predict` receives it: a 1-D row (from the batch loop) or a
1-row matrix (the whole input when `sample.shape[0] <= 1`). NumPy broadcasts
`(D,) - (1,D)` and `(D,) - (D,)` identically, so both carry just the row. -/
inductive Samp (α : Type) where
  | svec (v : List α)
  | smat1 (v : List α)

/-- The row of a sample. -/
def sampVec : Samp α → List α
  | .svec v => v
  | .smat1 v => v

/-- `np.linalg.norm(cluster.data - sample)` squared: for vector data the
squared vector norm of the difference; for matrix data the squared Frobenius
norm of the row-broadcast difference. -/
def pnodeSqDist (n : PNode α) (s : Samp α) : α :=
  match n with
  | .h c => sqNorm (qsub c.data (sampVec s))
  | .u _ (.vec v) _ => sqNorm (qsub v (sampVec s))
  | .u _ (.mat m) _ => (m.map (fun r => sqNorm (qsub r (sampVec s)))).sum

/-- Whether a `Plevel` node `isinstance(cluster, HyperLevelCluster)`. -/
def pnodeIsHyper : PNode α → Bool
  | .h _ => true
  | .u _ _ _ => false

/-- `cluster.children` of a node during the descent; the `.h` case is
unreachable in the descent (the loop has exited as soon as any hyper node is
in `Lx`). -/
def pnodeChildren : PNode α → List (PNode α)
  | .h _ => []
  | .u _ _ cs => cs

/-- A placeholder node for `np.take` index defaults (indices from `argsort`
are always in range). -/
def dummyPNode : PNode α := .u 0 (.vec []) []

/-- The `while not any(isinstance(cluster, HyperLevelCluster) ...)` descent of
`_predict`: flatten the children of `Lx`, keep the `sigma` nearest; fuel as
in `extractLoop`. -/
def descendLoop (sigma : ℕ) (s : Samp α) : ℕ → List (PNode α) → Except PErr (List (PNode α))
  | fuel, lx =>
    if lx.any pnodeIsHyper then .ok lx
    else
      let subs := (lx.map pnodeChildren).flatten
      let lx2 := ((argsortQ (subs.map (fun n => pnodeSqDist n s))).take sigma).map
        (fun i => subs.getD i dummyPNode)
      match fuel with
      | 0 => .error .maxIter
      | f + 1 => descendLoop sigma s f lx2

/-- The in-memory `KNeighborsClassifier` of the fallback path: the `k`
nearest pooled samples (stable `argsort` of the squared distances) and a
majority vote, ties broken toward the smaller class label (sklearn's
`classes_` are sorted and `argmax` takes the first maximum). -/
def knnPredict (k : ℕ) (data : List (List α)) (labels : List ℕ) (v : List α) : ℕ :=
  let chosen := (argsortQ (data.map (fun r => sqNorm (qsub r v)))).take k
  let chosenLabels := chosen.map (fun i => labels.getD i 0)
  let classes := npUnique labels
  classes.getD (npArgmax (classes.map (fun c => (chosenLabels.filter (fun a => a = c)).length))) 0

/-- `ClusterTreeKNN._predict` on one sample: pick the `sigma` nearest
`Plevel` nodes, assert nonempty, descend to the hyper level, filter by the
purity radius (`AttributeError` if a non-hyper node is in `Lx` there), fall
back to all of `Lx` when the filter is empty, return the single label on the
fast path, otherwise pool the bottom-level children and take a k-NN majority
vote; a 1-row-matrix sample makes `knn.predict([sample])` a 3-D input, which
sklearn rejects. -/
def predictOne [DecidableEq α] (P : List (PNode α)) (sigma k : ℕ) (s : Samp α) :
    Except PErr ℕ :=
  let lx0 := ((argsortQ (P.map (fun n => pnodeSqDist n s))).take sigma).map
    (fun i => P.getD i dummyPNode)
  if lx0.isEmpty then .error .assertFail
  else do
    let lx ← descendLoop sigma s 99 lx0
    if lx.all pnodeIsHyper then
      let hs := lx.filterMap (fun n => match n with | .h c => some c | .u _ _ _ => none)
      let lh0 := hs.filter (fun c => decide (sqNorm (qsub c.data (sampVec s)) ≤ c.gamma_d))
      let lh := if lh0 = [] then hs else lh0
      let labs := npUnique (lh.map (fun c => c.label))
      if labs.length ≤ 1 then .ok (labs.getD 0 0)
      else
        let bs := (lh.map (fun c => c.children)).flatten
        if bs = [] then .error .concatErr
        else
          let bd := (bs.map (fun b => b.data)).flatten
          let bl := (bs.map (fun b => b.labels)).flatten
          match s with
          | .svec v => .ok (knnPredict (min k bd.length) bd bl v)
          | .smat1 _ => .error .badShape
    else .error .attrErr

/-- The batch comprehension
`np.array([self._predict(_sample) for _sample in sample])`: one `_predict`
per row, in order, the first raised exception aborting the whole batch. -/
def predictRows [DecidableEq α] (P : List (PNode α)) (sigma k : ℕ) :
    List (List α) → Except PErr (List ℕ)
  | [] => .ok []
  | r :: rs => do
    let a ← predictOne P sigma k (.svec r)
    let as ← predictRows P sigma k rs
    .ok (a :: as)

/-- `ClusterTreeKNN.predict` on a batch matrix: with more than one row, one
`_predict` per row in order mirroring
`np.array([self._predict(_sample) for _sample in sample])` (`Sum.inr`);
with exactly one row the dispatch `sample.shape[0] > 1` fails and the whole
1-row matrix goes to `_predict` as a single sample (`Sum.inl`). -/
def predict [DecidableEq α] (P : List (PNode α)) (sigma k : ℕ) (rows : List (List α)) :
    Except PErr (Sum ℕ (List ℕ)) :=
  if 1 < rows.length then
    (predictRows P sigma k rows).map Sum.inr
  else
    match rows with
    | [r] => (predictOne P sigma k (.smat1 r)).map Sum.inl
    | _ => .error .emptyInput

mutual
/-- Total number of samples stored in bottom-level clusters reachable as
children of one node of the final tree. -/
def pnodeLeafCount : PNode α → ℕ
  | .h c => (c.children.map (fun b => b.data.length)).sum
  | .u _ _ cs => pnodesLeafCount cs
/-- Total number of samples stored in bottom-level clusters reachable from a
list of nodes. -/
def pnodesLeafCount : List (PNode α) → ℕ
  | [] => 0
  | n :: ns => pnodeLeafCount n + pnodesLeafCount ns
end

/-- The purity property of one `HyperLevelCluster`: every sample stored in a
bottom-level child whose squared distance to the representative is below
`gamma_d` carries the representative's label. -/
def hyperPure (hn : HLC α) : Prop :=
  ∀ b ∈ hn.children, ∀ j, j < b.labels.length →
    sqNorm (qsub (b.data.getD j []) hn.data) < hn.gamma_d →
    b.labels.getD j 0 = hn.label

/-- A DBSCAN stand-in for runs whose condensation never reaches the DBSCAN
branch (levels of size 1 or 2). -/
def dbTrivial : ℚ → ℕ → List (List α) → DbRes := fun _ _ _ => ⟨[], []⟩

/-- The spec's two-cluster scenario: cluster A = three points labelled `0`
around the origin, cluster B = three points labelled `1` around
`(100, 100)`, with caller-supplied per-cluster centroids. -/
def ctxC4 : FitCtx ℤ :=
  { clusters_masks := [0, 0, 0, 1, 1, 1]
    centroids := [[0, 0], [100, 100]]
    X := [[0, 0], [2, 0], [0, 2], [100, 100], [102, 100], [100, 102]]
    y := [0, 0, 0, 1, 1, 1] }

/-- Initial extraction state of the two-cluster scenario. -/
def st0C4 : ExtractState ℤ := initState ctxC4

/-- State after the first extraction iteration of the two-cluster scenario. -/
def st1C4 : ExtractState ℤ :=
  match extractStep ctxC4 st0C4 with
  | .ok st => st
  | .error _ => ⟨[], [], [], none⟩

/-- `fit` on the two-cluster scenario (default
`initial_hyperlevel_threshold = 5`; DBSCAN is never reached: the hyper level
has two nodes, so the condensation takes the two-node merge branch). -/
def fitC4 : Except FitErr (FitResult ℤ) := fit ctxC4 5 dbTrivial

/-- The fitted index of the two-cluster scenario. -/
def resC4 : FitResult ℤ :=
  match fitC4 with
  | .ok r => r
  | .error _ => ⟨[], [], []⟩

/-- Coverage failing input: cluster 0 holds rows `[0]`, `[6]` (label `0`) and
`[20]` (label `1`); cluster 1 holds row `[100]` (label `1`); caller-supplied
centroids. -/
def ctxC3 : FitCtx ℤ :=
  { clusters_masks := [0, 0, 0, 1]
    centroids := [[9], [100]]
    X := [[0], [6], [20], [100]]
    y := [0, 0, 1, 1] }

/-- `fit` on the coverage failing input (the hyper level ends with two nodes,
so DBSCAN is never reached). -/
def fitC3 : Except FitErr (FitResult ℤ) := fit ctxC3 5 dbTrivial

/-- The fitted index of the coverage failing input. -/
def resC3 : FitResult ℤ :=
  match fitC3 with
  | .ok r => r
  | .error _ => ⟨[], [], []⟩

/-- Single-class-branch input: cluster 0 holds rows `[0]`, `[1]`, `[2]`
(label `0`) and `[3]` (label `1`); clusters 1 and 2 are the singletons
`[100]` and `[200]`, both labelled `1`. After the first iteration removes
cluster 0, the pool is single-class with two clusters remaining. -/
def ctxC5 : FitCtx ℤ :=
  { clusters_masks := [0, 0, 0, 0, 1, 2]
    centroids := [[2], [100], [200]]
    X := [[0], [1], [2], [3], [100], [200]]
    y := [0, 0, 0, 1, 1, 1] }

/-- Initial extraction state of the single-class-branch input. -/
def st0C5 : ExtractState ℤ := initState ctxC5

/-- State after the first extraction iteration of the single-class-branch
input (multi-class branch, removes cluster 0). -/
def st1C5 : ExtractState ℤ :=
  match extractStep ctxC5 st0C5 with
  | .ok st => st
  | .error _ => ⟨[], [], [], none⟩

/-- State after the second extraction iteration of the single-class-branch
input (single-class branch with two clusters remaining). -/
def st2C5 : ExtractState ℤ :=
  match extractStep ctxC5 st1C5 with
  | .ok st => st
  | .error _ => ⟨[], [], [], none⟩

/-! ### Helper lemmas -/

theorem npFirstMatch_lt_length {β : Type} [DecidableEq β] (m : β) :
    ∀ (l : List β) (j : ℕ), npFirstMatch m l = some j → j < l.length := by
  intro l
  induction l with
  | nil => intro j hj; simp [npFirstMatch] at hj
  | cons x xs ih =>
    intro j hj
    simp only [npFirstMatch] at hj
    by_cases hx : x = m
    · rw [if_pos hx] at hj
      cases hj
      simp only [List.length_cons]
      omega
    · rw [if_neg hx] at hj
      cases hi : npFirstMatch m xs with
      | none => rw [hi] at hj; simp at hj
      | some i =>
        rw [hi] at hj
        cases hj
        have := ih i hi
        simp only [List.length_cons]
        omega

theorem getD_mem_of_lt {β : Type} (l : List β) (i : ℕ) (d : β) (h : i < l.length) :
    l.getD i d ∈ l := by
  rw [List.getD_eq_getElem?_getD, List.getElem?_eq_getElem h]
  exact List.getElem_mem h

theorem getD_eq_default_of_le {β : Type} (l : List β) (i : ℕ) (d : β)
    (h : l.length ≤ i) : l.getD i d = d := by
  rw [List.getD_eq_getElem?_getD, List.getElem?_eq_none h]
  rfl

theorem range_map_getD {β : Type} (d : β) :
    ∀ (l : List β), (List.range l.length).map (fun i => l.getD i d) = l := by
  intro l
  induction l with
  | nil => simp
  | cons x xs ih =>
    rw [List.length_cons, List.range_succ_eq_map, List.map_cons, List.map_map]
    have h2 : ((fun i => (x :: xs).getD i d) ∘ Nat.succ) = fun i => xs.getD i d := by
      funext i; rfl
    rw [h2, ih]
    rfl

theorem alleq_of_dedup_le_one {l : List ℕ} (h : l.dedup.length ≤ 1) :
    ∀ a ∈ l, a = l.getD 0 0 := by
  cases l with
  | nil => intro a ha; simp at ha
  | cons x xs =>
    intro a ha
    have hx : x ∈ (x :: xs).dedup := List.mem_dedup.mpr (by simp)
    have ha2 : a ∈ (x :: xs).dedup := List.mem_dedup.mpr ha
    have hne : (x :: xs).dedup ≠ [] := by
      intro he; rw [he] at hx; simp at hx
    have hlen : (x :: xs).dedup.length = 1 := by
      have := List.length_pos.mpr hne
      omega
    obtain ⟨b, hb⟩ := List.length_eq_one.mp hlen
    rw [hb] at hx ha2
    simp at hx ha2
    simp [ha2, hx]

theorem mem_insNat {a b : ℕ} : ∀ {l : List ℕ}, a ∈ insNat b l ↔ a = b ∨ a ∈ l := by
  intro l
  induction l with
  | nil => simp [insNat]
  | cons c cs ih =>
    by_cases hc : c ≤ b
    · simp only [insNat, if_pos hc, List.mem_cons, ih]
      tauto
    · simp only [insNat, if_neg hc, List.mem_cons]

theorem mem_sortNat {a : ℕ} : ∀ {l : List ℕ}, a ∈ sortNat l ↔ a ∈ l := by
  intro l
  induction l with
  | nil => simp [sortNat]
  | cons x xs ih =>
    simp only [sortNat, List.foldr_cons]
    rw [mem_insNat]
    simp only [List.mem_cons]
    have ih2 : a ∈ List.foldr insNat [] xs ↔ a ∈ xs := ih
    rw [ih2]

theorem mem_npUnique {a : ℕ} {l : List ℕ} : a ∈ npUnique l ↔ a ∈ l := by
  rw [npUnique, List.mem_dedup, mem_sortNat]

omit [LinearOrderedCommRing α] in
theorem poolMasks_sub (ctx : FitCtx α) (st : ExtractState α) :
    ∀ a ∈ poolMasks ctx st, a ∈ st.remaining := by
  intro a ha
  simp only [poolMasks, List.mem_map] at ha
  obtain ⟨i, hi, rfl⟩ := ha
  simp only [poolIdx, List.mem_filter] at hi
  exact of_decide_eq_true hi.2

omit [LinearOrderedCommRing α] in
theorem poolMasks_length (ctx : FitCtx α) (st : ExtractState α) :
    (poolMasks ctx st).length = (poolX ctx st).length := by
  simp [poolMasks, poolX]

theorem mdIndexes_lt [DecidableEq α] (ctx : FitCtx α) (st : ExtractState α)
    (h : poolX ctx st ≠ []) : ∀ i ∈ mdIndexes ctx st, i < (poolX ctx st).length := by
  intro i hi
  simp only [mdIndexes, List.mem_map] at hi
  obtain ⟨m, _, rfl⟩ := hi
  cases hm : npFirstMatch m (poolX ctx st) with
  | none => simpa using List.length_pos.mpr h
  | some j =>
    simpa using npFirstMatch_lt_length m (poolX ctx st) j hm

theorem multiIw_lt [DecidableEq α] (ctx : FitCtx α) (st : ExtractState α)
    (h : poolX ctx st ≠ []) : multiIw ctx st < (poolX ctx st).length := by
  unfold multiIw
  by_cases hw : multiW ctx st < (mdIndexes ctx st).length
  · exact mdIndexes_lt ctx st h _ (getD_mem_of_lt _ _ _ hw)
  · rw [getD_eq_default_of_le _ _ _ (by omega)]
    exact List.length_pos.mpr h

theorem extractStep_ok_cases [DecidableEq α] (ctx : FitCtx α) (st st' : ExtractState α)
    (h : extractStep ctx st = .ok st') :
    st.remaining ≠ [] ∧ poolX ctx st ≠ [] ∧
      ((1 < (poolY ctx st).dedup.length ∧ st' = multiStep ctx st) ∨
       ((poolY ctx st).dedup.length ≤ 1 ∧
         ∃ g, st.gammaPrev = some g ∧ st' = singleStep ctx st g)) := by
  unfold extractStep at h
  split_ifs at h with h1 h2 h3
  · refine ⟨h1, h2, Or.inl ⟨h3, ?_⟩⟩
    cases h
    rfl
  · cases hg : st.gammaPrev with
    | none => rw [hg] at h; exact absurd h (by simp)
    | some g =>
      rw [hg] at h
      refine ⟨h1, h2, Or.inr ⟨by omega, g, rfl, ?_⟩⟩
      cases h
      rfl

theorem extractStep_ne_maxIter [DecidableEq α] (ctx : FitCtx α) (st : ExtractState α) :
    extractStep ctx st ≠ .error .maxIter := by
  unfold extractStep
  split_ifs with h1 h2 h3
  · simp
  · simp
  · simp
  · cases st.gammaPrev <;> simp

theorem extractStep_remaining_length [DecidableEq α] (ctx : FitCtx α)
    (st st' : ExtractState α) (h : extractStep ctx st = .ok st') :
    st'.remaining.length + 1 = st.remaining.length := by
  obtain ⟨h1, h2, hc⟩ := extractStep_ok_cases ctx st st' h
  cases hc with
  | inl hm =>
    rw [hm.2]
    show (st.remaining.erase (multiCtbr ctx st)).length + 1 = st.remaining.length
    apply List.length_erase_add_one
    apply poolMasks_sub ctx st
    apply getD_mem_of_lt
    rw [poolMasks_length]
    exact multiIw_lt ctx st h2
  | inr hs =>
    obtain ⟨_, g, _, hst⟩ := hs
    rw [hst]
    show st.remaining.dropLast.length + 1 = st.remaining.length
    rw [List.length_dropLast]
    have := List.length_pos.mpr h1
    omega

theorem extractLoop_no_maxIter [DecidableEq α] (ctx : FitCtx α) :
    ∀ (fuel : ℕ) (st : ExtractState α), st.remaining.length ≤ fuel →
      extractLoop ctx fuel st ≠ .error .maxIter := by
  intro fuel
  induction fuel with
  | zero =>
    intro st hlen
    have : st.remaining = [] := List.length_eq_zero.mp (by omega)
    unfold extractLoop
    rw [if_pos this]
    simp
  | succ f ih =>
    intro st hlen
    unfold extractLoop
    by_cases hr : st.remaining = []
    · rw [if_pos hr]; simp
    · rw [if_neg hr]
      cases hstep : extractStep ctx st with
      | error e =>
        have hne := extractStep_ne_maxIter ctx st
        rw [hstep] at hne
        simp only [Except.bind]
        intro hcontra
        apply hne
        cases hcontra
        rfl
      | ok st2 =>
        have hlen2 := extractStep_remaining_length ctx st st2 hstep
        simp only [Except.bind]
        show extractLoop ctx f st2 ≠ .error .maxIter
        exact ih st2 (by omega)

theorem npArgmaxAux_spec {β : Type} [LinearOrder β] (d : β) :
    ∀ (xs : List β) (i bi : ℕ) (bv : β),
      (npArgmaxAux xs i bi bv = bi ∧ ∀ k, k < xs.length → xs.getD k d ≤ bv) ∨
      (∃ k, k < xs.length ∧ npArgmaxAux xs i bi bv = i + k ∧ bv < xs.getD k d ∧
        (∀ m, m < xs.length → xs.getD m d ≤ xs.getD k d) ∧
        (∀ m, m < k → xs.getD m d < xs.getD k d)) := by
  intro xs
  induction xs with
  | nil =>
    intro i bi bv
    left
    exact ⟨rfl, fun k hk => by simp at hk⟩
  | cons x rest ih =>
    intro i bi bv
    by_cases hx : bv < x
    · have hstep : npArgmaxAux (x :: rest) i bi bv = npArgmaxAux rest (i + 1) i x := by
        simp [npArgmaxAux, hx]
      rcases ih (i + 1) i x with ⟨heq, hall⟩ | ⟨k, hk, heq, hgt, hall, hstrict⟩
      · right
        refine ⟨0, by simp, ?_, ?_, ?_, ?_⟩
        · rw [hstep, heq]; omega
        · simpa using hx
        · intro m hm
          cases m with
          | zero => simp
          | succ m2 =>
            rw [List.getD_cons_succ, List.getD_cons_zero]
            exact hall m2 (by simpa using hm)
        · intro m hm
          omega
      · right
        refine ⟨k + 1, by simpa using hk, ?_, ?_, ?_, ?_⟩
        · rw [hstep, heq]; omega
        · rw [List.getD_cons_succ]
          exact lt_trans hx hgt
        · intro m hm
          cases m with
          | zero =>
            rw [List.getD_cons_zero, List.getD_cons_succ]
            exact le_of_lt hgt
          | succ m2 =>
            rw [List.getD_cons_succ, List.getD_cons_succ]
            exact hall m2 (by simpa using hm)
        · intro m hm
          cases m with
          | zero =>
            rw [List.getD_cons_zero, List.getD_cons_succ]
            exact hgt
          | succ m2 =>
            rw [List.getD_cons_succ, List.getD_cons_succ]
            exact hstrict m2 (by omega)
    · have hstep : npArgmaxAux (x :: rest) i bi bv = npArgmaxAux rest (i + 1) bi bv := by
        simp [npArgmaxAux, hx]
      have hxle : x ≤ bv := not_lt.mp hx
      rcases ih (i + 1) bi bv with ⟨heq, hall⟩ | ⟨k, hk, heq, hgt, hall, hstrict⟩
      · left
        refine ⟨by rw [hstep, heq], ?_⟩
        intro k hk
        cases k with
        | zero => simpa using hxle
        | succ m2 =>
          rw [List.getD_cons_succ]
          exact hall m2 (by simpa using hk)
      · right
        refine ⟨k + 1, by simpa using hk, ?_, ?_, ?_, ?_⟩
        · rw [hstep, heq]; omega
        · rw [List.getD_cons_succ]
          exact hgt
        · intro m hm
          cases m with
          | zero =>
            rw [List.getD_cons_zero, List.getD_cons_succ]
            exact le_of_lt (lt_of_le_of_lt hxle hgt)
          | succ m2 =>
            rw [List.getD_cons_succ, List.getD_cons_succ]
            exact hall m2 (by simpa using hm)
        · intro m hm
          cases m with
          | zero =>
            rw [List.getD_cons_zero, List.getD_cons_succ]
            exact lt_of_le_of_lt hxle hgt
          | succ m2 =>
            rw [List.getD_cons_succ, List.getD_cons_succ]
            exact hstrict m2 (by omega)

theorem npArgmax_spec {β : Type} [LinearOrder β] (d : β) (l : List β) (hl : l ≠ []) :
    npArgmax l < l.length ∧
    (∀ j, j < l.length → l.getD j d ≤ l.getD (npArgmax l) d) ∧
    (∀ j, j < npArgmax l → l.getD j d < l.getD (npArgmax l) d) := by
  cases l with
  | nil => exact absurd rfl hl
  | cons x rest =>
    have hdef : npArgmax (x :: rest) = npArgmaxAux rest 1 0 x := rfl
    rcases npArgmaxAux_spec d rest 1 0 x with ⟨heq, hall⟩ | ⟨k, hk, heq, hgt, hall, hstrict⟩
    · rw [hdef, heq]
      refine ⟨by simp, ?_, ?_⟩
      · intro j hj
        cases j with
        | zero => simp
        | succ m =>
          rw [List.getD_cons_succ, List.getD_cons_zero]
          exact hall m (by simpa using hj)
      · intro j hj
        omega
    · rw [hdef, heq]
      refine ⟨by simp only [List.length_cons]; omega, ?_, ?_⟩
      · intro j hj
        have h1k : (1 : ℕ) + k = k + 1 := by omega
        rw [h1k, List.getD_cons_succ]
        cases j with
        | zero =>
          rw [List.getD_cons_zero]
          exact le_of_lt hgt
        | succ m =>
          rw [List.getD_cons_succ]
          exact hall m (by simpa using hj)
      · intro j hj
        have h1k : (1 : ℕ) + k = k + 1 := by omega
        rw [h1k, List.getD_cons_succ]
        cases j with
        | zero =>
          rw [List.getD_cons_zero]
          exact hgt
        | succ m =>
          rw [List.getD_cons_succ]
          exact hstrict m (by omega)

theorem extractLoop_nil [DecidableEq α] (ctx : FitCtx α) (fuel : ℕ)
    (st : ExtractState α) (hr : st.remaining = []) :
    extractLoop ctx fuel st = .ok st := by
  unfold extractLoop
  rw [if_pos hr]

theorem extractLoop_succ [DecidableEq α] (ctx : FitCtx α) (f : ℕ)
    (st : ExtractState α) (hr : st.remaining ≠ []) :
    extractLoop ctx (f + 1) st = extractStep ctx st >>= extractLoop ctx f := by
  unfold extractLoop
  rw [if_neg hr]

theorem psiIdx_label (Xl : List (List α)) (yl : List ℕ) (i : ℕ) (g : α) :
    ∀ j ∈ psiIdx Xl yl i g, yl.getD j 0 = yl.getD i 0 := by
  intro j hj
  simp only [psiIdx, List.mem_filter, Bool.and_eq_true, decide_eq_true_eq] at hj
  exact hj.2.1

omit [LinearOrderedCommRing α] in
theorem length_le_one_of_nodup_alleq {l : List ℕ} {c : ℕ} (hn : l.Nodup)
    (h : ∀ a ∈ l, a = c) : l.length ≤ 1 := by
  cases l with
  | nil => simp
  | cons x xs =>
    cases xs with
    | nil => simp
    | cons z t =>
      have hx : x = c := h x (by simp)
      have hz : z = c := h z (by simp)
      rw [List.nodup_cons] at hn
      exact absurd (by simp [hx, hz] : x ∈ z :: t) hn.1

theorem predictRows_spec [DecidableEq α] (P : List (PNode α)) (sigma k : ℕ) :
    ∀ (rows : List (List α)) (out : List ℕ), predictRows P sigma k rows = .ok out →
      out.length = rows.length ∧
      ∀ i, i < rows.length →
        predictOne P sigma k (.svec (rows.getD i [])) = .ok (out.getD i 0) := by
  intro rows
  induction rows with
  | nil =>
    intro out h
    have h2 : Except.ok ([] : List ℕ) = Except.ok out := h
    injection h2 with h3
    subst h3
    exact ⟨rfl, fun i hi => by simp at hi⟩
  | cons r rs ih =>
    intro out h
    have hc : predictRows P sigma k (r :: rs) =
        Except.bind (predictOne P sigma k (.svec r)) (fun a =>
          Except.bind (predictRows P sigma k rs) (fun as => Except.ok (a :: as))) := rfl
    rw [hc] at h
    cases ha : predictOne P sigma k (.svec r) with
    | error e =>
      rw [ha] at h
      exact Except.noConfusion h
    | ok a =>
      rw [ha] at h
      have h4 : Except.bind (predictRows P sigma k rs)
          (fun as => Except.ok (a :: as)) = Except.ok out := h
      cases hrs : predictRows P sigma k rs with
      | error e =>
        rw [hrs] at h4
        exact Except.noConfusion h4
      | ok as =>
        rw [hrs] at h4
        have h5 : Except.ok (a :: as) = Except.ok out := h4
        injection h5 with h6
        subst h6
        obtain ⟨hlen, hidx⟩ := ih as hrs
        refine ⟨by simp [hlen], ?_⟩
        intro i hi
        cases i with
        | zero => simpa using ha
        | succ m =>
          rw [List.getD_cons_succ, List.getD_cons_succ]
          exact hidx m (by simpa using hi)

omit [LinearOrderedCommRing α] in
theorem condenseStep_congr (eps0 : ℚ) (db db2 : ℚ → ℕ → List (List α) → DbRes)
    (hdb : ∀ ms hd, db eps0 ms hd = db2 eps0 ms hd) (P : List (PNode α)) :
    condenseStep eps0 db P = condenseStep eps0 db2 P := by
  simp only [condenseStep, hdb]

omit [LinearOrderedCommRing α] in
theorem condenseLoop_congr (eps0 : ℚ) (db db2 : ℚ → ℕ → List (List α) → DbRes)
    (hdb : ∀ ms hd, db eps0 ms hd = db2 eps0 ms hd) :
    ∀ (fuel : ℕ) (P : List (PNode α)) (thr : ℚ),
      condenseLoop eps0 db fuel P thr = condenseLoop eps0 db2 fuel P thr := by
  intro fuel
  induction fuel with
  | zero => intro P thr; rfl
  | succ f ih =>
    intro P thr
    by_cases hP : P.length = 1
    · unfold condenseLoop
      rw [if_pos hP, if_pos hP]
    · unfold condenseLoop
      rw [if_neg hP, if_neg hP]
      show condenseLoop eps0 db f (condenseStep eps0 db P) (thr + 1/2) =
        condenseLoop eps0 db2 f (condenseStep eps0 db2 P) (thr + 1/2)
      rw [condenseStep_congr eps0 db db2 hdb P, ih]

/-! ### Claim theorems -/

/-- C10: if every training label is identical (single-class dataset, at least
one cluster, masks aligned with labels), `fit` never returns a fitted index:
the first extraction iteration takes the single-class branch and reads
`gamma_d[0]`, but `gamma_d` is only assigned in the multi-class branch, so
construction fails with Python's unbound-local error. -/
theorem c10_single_class_unbound [DecidableEq α] (ctx : FitCtx α) (eps0 : ℚ)
    (db : ℚ → ℕ → List (List α) → DbRes)
    (hm : ctx.clusters_masks ≠ [])
    (hlen : ctx.clusters_masks.length = ctx.y.length)
    (hall : ∀ a ∈ ctx.y, a = ctx.y.getD 0 0) :
    fit ctx eps0 db = .error .unboundLocal := by
  have hn : (initState ctx).remaining ≠ [] := by
    show npUnique ctx.clusters_masks ≠ []
    cases hmm : ctx.clusters_masks with
    | nil => exact absurd hmm hm
    | cons m ms =>
      have hmem : m ∈ npUnique (m :: ms) := mem_npUnique.mpr (by simp)
      exact List.ne_nil_of_mem hmem
  have hpidx : poolIdx ctx (initState ctx) = List.range ctx.clusters_masks.length := by
    apply List.filter_eq_self.mpr
    intro i hi
    rw [List.mem_range] at hi
    apply decide_eq_true
    show ctx.clusters_masks.getD i 0 ∈ (initState ctx).remaining
    show ctx.clusters_masks.getD i 0 ∈ npUnique ctx.clusters_masks
    exact mem_npUnique.mpr (getD_mem_of_lt ctx.clusters_masks i 0 hi)
  have hpy : poolY ctx (initState ctx) = ctx.y := by
    show (poolIdx ctx (initState ctx)).map (fun i => ctx.y.getD i 0) = ctx.y
    rw [hpidx, hlen]
    exact range_map_getD 0 ctx.y
  have hpx : poolX ctx (initState ctx) ≠ [] := by
    show (poolIdx ctx (initState ctx)).map (fun i => ctx.X.getD i []) ≠ []
    rw [hpidx]
    intro he
    have hle := congrArg List.length he
    simp only [List.length_map, List.length_range, List.length_nil] at hle
    exact hm (List.length_eq_zero.mp hle)
  have hded : ¬ (poolY ctx (initState ctx)).dedup.length > 1 := by
    rw [hpy]
    have hle1 := length_le_one_of_nodup_alleq (List.nodup_dedup ctx.y)
      (fun a ha => hall a (List.mem_dedup.mp ha))
    omega
  have hstep : extractStep ctx (initState ctx) = .error .unboundLocal := by
    unfold extractStep
    rw [if_neg hn, if_neg hpx, if_neg hded]
    have hg : (initState ctx).gammaPrev = none := rfl
    rw [hg]
  have hloop : extractLoop ctx 99 (initState ctx) = .error .unboundLocal := by
    unfold extractLoop
    rw [if_neg hn]
    show extractStep ctx (initState ctx) >>= extractLoop ctx 98 = .error .unboundLocal
    rw [hstep]
    rfl
  unfold fit
  rw [hloop]
  rfl

/-- C2: every successful iteration of the extraction loop removes exactly one
identifier from the remaining-cluster set, so for any state the loop
terminates within as many iterations as there are remaining identifiers
(never tripping the `iter < self._max_iter` guard when the count fits in the
budget); exhausting the budget is the fatal `Except.error .maxIter`, not a
recoverable outcome. -/
theorem c2_extraction_terminates [DecidableEq α] :
    (∀ (ctx : FitCtx α) (st st2 : ExtractState α), extractStep ctx st = .ok st2 →
      st2.remaining.length + 1 = st.remaining.length) ∧
    (∀ (ctx : FitCtx α) (fuel : ℕ) (st : ExtractState α), st.remaining.length ≤ fuel →
      extractLoop ctx fuel st ≠ .error .maxIter) :=
  ⟨fun ctx st st2 h => extractStep_remaining_length ctx st st2 h,
   fun ctx fuel st h => extractLoop_no_maxIter ctx fuel st h⟩

/-- Witness for C2 at the concrete two-cluster input: the first extraction
step shrinks the remaining set from two identifiers to one, and the loop with
the source's budget never trips the iteration guard. -/
theorem c2_witness :
    (st1C4.remaining.length + 1 = st0C4.remaining.length) ∧
    extractLoop ctxC4 99 st0C4 ≠ Except.error FitErr.maxIter :=
  ⟨c2_extraction_terminates.1 ctxC4 st0C4 st1C4 rfl,
   c2_extraction_terminates.2 ctxC4 99 st0C4 (by decide)⟩

theorem extractStep_purity [DecidableEq α] (ctx : FitCtx α) (st st2 : ExtractState α)
    (h : extractStep ctx st = .ok st2) :
    ∃ hn, st2.Hlevel = st.Hlevel ++ [hn] ∧
      ∀ b ∈ hn.children, ∀ j, j < b.labels.length →
        sqNorm (qsub (b.data.getD j []) hn.data) < hn.gamma_d →
        b.labels.getD j 0 = hn.label := by
  obtain ⟨h1, h2, hc⟩ := extractStep_ok_cases ctx st st2 h
  cases hc with
  | inl hmulti =>
    refine ⟨multiNewH ctx st, by rw [hmulti.2]; rfl, ?_⟩
    intro b hb j hj _
    have hb2 : b = multiNewB ctx st := by
      have : (multiNewH ctx st).children = [multiNewB ctx st] := rfl
      rw [this] at hb
      simpa using hb
    subst hb2
    have hlab : (multiNewB ctx st).labels =
        (psiIdx (poolX ctx st) (poolY ctx st) (multiIw ctx st)
          ((multiGammas ctx st).getD (multiW ctx st) 0)).map
          (fun j2 => (poolY ctx st).getD j2 0) := rfl
    have hmem : (multiNewB ctx st).labels.getD j 0 ∈ (multiNewB ctx st).labels :=
      getD_mem_of_lt _ _ _ hj
    rw [hlab] at hmem
    rw [List.mem_map] at hmem
    obtain ⟨j2, hj2, heq⟩ := hmem
    have := psiIdx_label (poolX ctx st) (poolY ctx st) (multiIw ctx st)
      ((multiGammas ctx st).getD (multiW ctx st) 0) j2 hj2
    rw [this] at heq
    exact heq.symm ▸ rfl
  | inr hsingle =>
    obtain ⟨hded, g, hg, hst⟩ := hsingle
    refine ⟨⟨st.Hlevel.length, (mostDissimilars ctx st).getD 0 [],
      (poolY ctx st).getD 0 0, g.getD 0 0,
      [⟨st.Blevel.length, poolX ctx st, poolY ctx st, none⟩]⟩,
      by rw [hst]; rfl, ?_⟩
    intro b hb j hj _
    have hb2 : b = (⟨st.Blevel.length, poolX ctx st, poolY ctx st, none⟩ : BLC α) := by
      simpa using hb
    subst hb2
    show (poolY ctx st).getD j 0 = (poolY ctx st).getD 0 0
    have hmem : (poolY ctx st).getD j 0 ∈ poolY ctx st := getD_mem_of_lt _ _ _ hj
    exact alleq_of_dedup_le_one hded _ hmem

theorem extractLoop_purity [DecidableEq α] (ctx : FitCtx α) :
    ∀ (fuel : ℕ) (st st2 : ExtractState α), extractLoop ctx fuel st = .ok st2 →
      (∀ hn ∈ st.Hlevel, hyperPure hn) → ∀ hn ∈ st2.Hlevel, hyperPure hn := by
  intro fuel
  induction fuel with
  | zero =>
    intro st st2 h hinv
    by_cases hr : st.remaining = []
    · rw [extractLoop_nil ctx 0 st hr] at h
      injection h with h2
      subst h2
      exact hinv
    · unfold extractLoop at h
      rw [if_neg hr] at h
      cases hs : extractStep ctx st with
      | error e =>
        rw [hs] at h
        exact Except.noConfusion h
      | ok st3 =>
        rw [hs] at h
        exact Except.noConfusion h
  | succ f ih =>
    intro st st2 h hinv
    by_cases hr : st.remaining = []
    · rw [extractLoop_nil ctx (f + 1) st hr] at h
      injection h with h2
      subst h2
      exact hinv
    · rw [extractLoop_succ ctx f st hr] at h
      cases hs : extractStep ctx st with
      | error e =>
        rw [hs] at h
        exact Except.noConfusion h
      | ok st3 =>
        rw [hs] at h
        have h2 : extractLoop ctx f st3 = Except.ok st2 := h
        obtain ⟨hn, hH, hpure⟩ := extractStep_purity ctx st st3 hs
        apply ih st3 st2 h2
        intro hn2 hmem
        rw [hH] at hmem
        rcases List.mem_append.mp hmem with hold | hnew
        · exact hinv hn2 hold
        · rw [List.mem_singleton] at hnew
          subst hnew
          exact hpure

/-- C8: every `HyperLevelCluster` of an index built by `fit` is pure: among
the samples captured into its child bottom-level clusters, none lying
strictly within `gamma_d` of the representative carries a different label
than the representative (in fact every captured sample carries the
representative's label). -/
theorem c8_purity [DecidableEq α] (ctx : FitCtx α) (eps0 : ℚ)
    (db : ℚ → ℕ → List (List α) → DbRes) (res : FitResult α)
    (h : fit ctx eps0 db = .ok res) : ∀ hn ∈ res.Hlevel, hyperPure hn := by
  unfold fit at h
  cases hloop : extractLoop ctx 99 (initState ctx) with
  | error e =>
    rw [hloop] at h
    exact Except.noConfusion h
  | ok st =>
    rw [hloop] at h
    have hred : ∀ (f : ExtractState α → Except FitErr (FitResult α)),
        (Except.ok st >>= f) = f st := fun _ => rfl
    rw [hred] at h
    by_cases hH : st.Hlevel = []
    · rw [if_pos hH] at h
      exact Except.noConfusion h
    · rw [if_neg hH] at h
      cases hcond : condenseLoop eps0 db 99 (st.Hlevel.map PNode.h) eps0 with
      | error e =>
        rw [hcond] at h
        exact Except.noConfusion h
      | ok P =>
        rw [hcond] at h
        have h2 : Except.ok (⟨st.Blevel, st.Hlevel, P⟩ : FitResult α) = Except.ok res := h
        injection h2 with h3
        subst h3
        show ∀ hn ∈ st.Hlevel, hyperPure hn
        exact extractLoop_purity ctx 99 (initState ctx) st hloop
          (fun hn hmem => by simp [initState] at hmem)

set_option maxHeartbeats 2000000 in
/-- Witness for C8: the first hyper node of the fitted two-cluster index is
pure. -/
theorem c8_witness : hyperPure (resC4.Hlevel.getD 0 ⟨0, [], 0, 0, []⟩) := by
  have hfit : fit ctxC4 5 dbTrivial = Except.ok resC4 := rfl
  exact c8_purity ctxC4 5 dbTrivial resC4 hfit _
    (getD_mem_of_lt _ _ _ (by decide : 0 < resC4.Hlevel.length))

/-- C9: `fit` is a pure function of its inputs — two runs on identical
samples, labels, masks, centroids and configuration produce identical trees —
and the only selection rule of the extraction ranking, `lambda_d.argmax()`,
breaks ties by the first-encountered maximum: the chosen index is in range,
carries a value at least every other value, and every strictly earlier index
carries a strictly smaller value. -/
theorem c9_deterministic [DecidableEq α] :
    (∀ (ctx : FitCtx α) (eps0 : ℚ) (db : ℚ → ℕ → List (List α) → DbRes),
      fit ctx eps0 db = fit ctx eps0 db) ∧
    (∀ l : List ℕ, l ≠ [] →
      npArgmax l < l.length ∧
      (∀ j, j < l.length → l.getD j 0 ≤ l.getD (npArgmax l) 0) ∧
      (∀ j, j < npArgmax l → l.getD j 0 < l.getD (npArgmax l) 0)) :=
  ⟨fun _ _ _ => rfl, fun l hl => npArgmax_spec 0 l hl⟩

/-- Witness for C9: the two-cluster run repeats itself, and on the tied
ranking `[3, 1, 3]` the argmax picks the first maximum, index `0`. -/
theorem c9_witness :
    (fit ctxC4 5 dbTrivial = fit ctxC4 5 dbTrivial) ∧
    npArgmax [3, 1, 3] < ([3, 1, 3] : List ℕ).length ∧
    (∀ j, j < ([3, 1, 3] : List ℕ).length →
      ([3, 1, 3] : List ℕ).getD j 0 ≤ ([3, 1, 3] : List ℕ).getD (npArgmax [3, 1, 3]) 0) ∧
    (∀ j, j < npArgmax ([3, 1, 3] : List ℕ) →
      ([3, 1, 3] : List ℕ).getD j 0 < ([3, 1, 3] : List ℕ).getD (npArgmax [3, 1, 3]) 0) :=
  ⟨(c9_deterministic (α := ℤ)).1 ctxC4 5 dbTrivial,
   (c9_deterministic (α := ℤ)).2 [3, 1, 3] (by decide)⟩

/-- C1 (divergence): the condensation loop's behavior depends on the
clustering only through its value at `eps = initial_hyperlevel_threshold` —
the radius supplied to DBSCAN is the constant constructor parameter at every
iteration — while the local `hyperlevel_threshold` is incremented by `1/2`
per iteration without ever being passed to the clustering: one unfolding of
the loop feeds `condenseStep eps0 db P` (no dependence on `thr`) and the
incremented `thr + 1/2` to the next iteration. -/
theorem c1_eps_constant :
    (∀ (eps0 : ℚ) (db db2 : ℚ → ℕ → List (List ℤ) → DbRes),
      (∀ ms hd, db eps0 ms hd = db2 eps0 ms hd) →
      ∀ (fuel : ℕ) (P : List (PNode ℤ)) (thr : ℚ),
        condenseLoop eps0 db fuel P thr = condenseLoop eps0 db2 fuel P thr) ∧
    (∀ (eps0 : ℚ) (db : ℚ → ℕ → List (List ℤ) → DbRes) (f : ℕ)
        (P : List (PNode ℤ)) (thr : ℚ), P.length ≠ 1 →
      condenseLoop eps0 db (f + 1) P thr =
        condenseLoop eps0 db f (condenseStep eps0 db P) (thr + 1/2)) := by
  constructor
  · intro eps0 db db2 hdb fuel P thr
    exact condenseLoop_congr eps0 db db2 hdb fuel P thr
  · intro eps0 db f P thr hP
    show (if P.length = 1 then Except.ok P
      else condenseLoop eps0 db f (condenseStep eps0 db P) (thr + 1/2)) =
      condenseLoop eps0 db f (condenseStep eps0 db P) (thr + 1/2)
    rw [if_neg hP]

/-- Witness for C1: a three-node level with two clustering functions that
agree at the initial threshold yields identical condensations, and one loop
unfolding bumps the dead threshold by `1/2`. -/
theorem c1_witness :
    (condenseLoop 5 dbTrivial 99 [dummyPNode, dummyPNode, dummyPNode] 5 =
      condenseLoop 5 (fun e ms hd => if e = 5 then dbTrivial e ms hd else ⟨[0], [0]⟩)
        99 ([dummyPNode, dummyPNode, dummyPNode] : List (PNode ℤ)) 5) ∧
    (condenseLoop 5 dbTrivial (0 + 1) ([dummyPNode, dummyPNode, dummyPNode] : List (PNode ℤ)) 5 =
      condenseLoop 5 dbTrivial 0
        (condenseStep 5 dbTrivial [dummyPNode, dummyPNode, dummyPNode]) (5 + 1/2)) :=
  ⟨c1_eps_constant.1 5 dbTrivial _ (fun ms hd => by simp) 99 _ 5,
   c1_eps_constant.2 5 dbTrivial 0 _ 5 (by decide)⟩

/-- C5 (amended): when the pool is single-class, gamma is bound, and the
asserts pass, the extraction step appends exactly one hyper node wrapping the
first most-dissimilar sample whose sole bottom-level child holds the entire
remaining pool — but it removes only the last identifier
(`remaining_clusters_labels.pop()`), not the whole remaining set. -/
theorem c5_single_class_step [DecidableEq α] (ctx : FitCtx α) (st : ExtractState α)
    (h1 : st.remaining ≠ []) (h2 : poolX ctx st ≠ [])
    (h3 : (poolY ctx st).dedup.length ≤ 1) (g : List α)
    (h4 : st.gammaPrev = some g) :
    extractStep ctx st = .ok (singleStep ctx st g) ∧
    (singleStep ctx st g).remaining = st.remaining.dropLast ∧
    (singleStep ctx st g).remaining.length + 1 = st.remaining.length ∧
    (singleStep ctx st g).Hlevel = st.Hlevel ++
      [⟨st.Hlevel.length, (mostDissimilars ctx st).getD 0 [], (poolY ctx st).getD 0 0,
        g.getD 0 0, [⟨st.Blevel.length, poolX ctx st, poolY ctx st, none⟩]⟩] := by
  refine ⟨?_, rfl, ?_, rfl⟩
  · unfold extractStep
    rw [if_neg h1, if_neg h2, if_neg (by omega : ¬ (poolY ctx st).dedup.length > 1), h4]
  · show st.remaining.dropLast.length + 1 = st.remaining.length
    rw [List.length_dropLast]
    have := List.length_pos.mpr h1
    omega

/-- Witness for C5's amended statement at the concrete input, after the first
iteration has removed cluster 0 and left a single-class pool of two
clusters. -/
theorem c5_witness :
    extractStep ctxC5 st1C5 = .ok (singleStep ctxC5 st1C5 [9, 9604, 39204]) ∧
    (singleStep ctxC5 st1C5 [9, 9604, 39204]).remaining = st1C5.remaining.dropLast ∧
    (singleStep ctxC5 st1C5 [9, 9604, 39204]).remaining.length + 1 =
      st1C5.remaining.length ∧
    (singleStep ctxC5 st1C5 [9, 9604, 39204]).Hlevel = st1C5.Hlevel ++
      [⟨st1C5.Hlevel.length, (mostDissimilars ctxC5 st1C5).getD 0 [],
        (poolY ctxC5 st1C5).getD 0 0, ([9, 9604, 39204] : List ℤ).getD 0 0,
        [⟨st1C5.Blevel.length, poolX ctxC5 st1C5, poolY ctxC5 st1C5, none⟩]⟩] :=
  c5_single_class_step ctxC5 st1C5 (by decide) (by decide) (by decide)
    [9, 9604, 39204] (by decide)

/-- C7 (amended): for a batch of more than one row, `predict` returns exactly
one label per row, in input order, the i-th being the single-sample routine
`_predict` applied to the i-th row alone; a batch of exactly one row is
instead dispatched to the single-sample path on the whole 1-row matrix. -/
theorem c7_batch_per_row [DecidableEq α] (P : List (PNode α)) (sigma k : ℕ)
    (rows : List (List α)) (h : 1 < rows.length) (out : List ℕ)
    (hp : predict P sigma k rows = .ok (.inr out)) :
    out.length = rows.length ∧
    ∀ i, i < rows.length →
      predictOne P sigma k (.svec (rows.getD i [])) = .ok (out.getD i 0) := by
  unfold predict at hp
  rw [if_pos h] at hp
  cases hrows : predictRows P sigma k rows with
  | error e =>
    rw [hrows] at hp
    exact Except.noConfusion hp
  | ok out2 =>
    rw [hrows] at hp
    have hp2 : Except.ok (Sum.inr out2 : Sum ℕ (List ℕ)) = Except.ok (Sum.inr out) := hp
    injection hp2 with hp3
    injection hp3 with hp4
    subst hp4
    exact predictRows_spec P sigma k rows out2 hrows

/-- Witness for C7's amended statement: a two-row batch near cluster A is
predicted row by row, giving `[0, 0]`. -/
theorem c7_witness :
    (([0, 0] : List ℕ).length = ([[0, 0], [2, 0]] : List (List ℤ)).length) ∧
    ∀ i, i < ([[0, 0], [2, 0]] : List (List ℤ)).length →
      predictOne resC4.Plevel 5 5
        (.svec (([[0, 0], [2, 0]] : List (List ℤ)).getD i [])) =
        .ok (([0, 0] : List ℕ).getD i 0) :=
  c7_batch_per_row resC4.Plevel 5 5 [[0, 0], [2, 0]] (by decide) [0, 0] rfl

/-- C7 (counterexample): on the fitted two-cluster index, a batch containing
exactly one row does not return one label per row: the dispatch
`sample.shape[0] > 1` sends the whole 1-row matrix to `_predict`, whose k-NN
fallback then rejects the 3-D query `[sample]` — while the row's own
single-sample prediction is the label `0`. -/
theorem c7_counterexample :
    predict resC4.Plevel 5 5 [[0, 0]] = Except.error PErr.badShape ∧
    predictOne resC4.Plevel 5 5 (Samp.svec [0, 0]) = Except.ok 0 :=
  ⟨rfl, rfl⟩

/-- C3: on the four-sample coverage input, `fit` succeeds but the
bottom-level clusters reachable in the final tree do not partition the input:
their sample counts sum to 3, not 4 (rows `[0]` and `[6]` are lost, row
`[20]` is stored twice). -/
theorem c3_coverage_fails :
    fitC3 = Except.ok resC3 ∧
    pnodesLeafCount resC3.Plevel = 3 ∧
    ctxC3.X.length = 4 ∧
    (resC3.Hlevel.map (fun c => c.children.map (fun b => b.data))) =
      [[[[20], [100]]], [[[20]]]] :=
  ⟨rfl, by decide, by decide, by decide⟩

/-- C4 (counterexample): on the spec's two-cluster scenario the first
extraction iteration does not take the single-class branch: the pool holds
both labels, the multi-class condition `np.unique(_y).shape[0] > 1` is true,
and the step taken is the multi-class step. -/
theorem c4_counterexample :
    1 < (poolY ctxC4 st0C4).dedup.length ∧
    extractStep ctxC4 st0C4 = Except.ok (multiStep ctxC4 st0C4) :=
  ⟨by decide, rfl⟩

/-- C4 (amended): on the two-cluster scenario `fit` creates exactly two hyper
nodes — the multi-class branch in iteration 1 (capturing cluster A's three
samples) and the single-class branch in iteration 2 (capturing cluster B's
three samples) — condenses them into one root, and the single-sample
prediction routine on a point at cluster A's centroid returns label `0`; the
public `predict` on that same point as a 1-row matrix instead fails in the
k-NN fallback. -/
theorem c4_amended :
    fitC4 = Except.ok resC4 ∧
    resC4.Hlevel.length = 2 ∧
    1 < (poolY ctxC4 st0C4).dedup.length ∧
    (poolY ctxC4 st1C4).dedup.length ≤ 1 ∧
    (resC4.Hlevel.map (fun c => c.children.map (fun b => b.data))) =
      [[[[0, 0], [2, 0], [0, 2]]], [[[100, 100], [102, 100], [100, 102]]]] ∧
    resC4.Plevel.length = 1 ∧
    predictOne resC4.Plevel 5 5 (Samp.svec [0, 0]) = Except.ok 0 ∧
    predict resC4.Plevel 5 5 [[0, 0]] = Except.error PErr.badShape :=
  ⟨rfl, by decide, by decide, by decide, by decide, by decide, rfl, rfl⟩

/-- C5 (counterexample): after the first iteration of the single-class-branch
input, the pool is single-class while two cluster identifiers remain; the
next step leaves the remaining set nonempty — the single-class branch does
not clear the entire remaining set in one step. -/
theorem c5_counterexample :
    (poolY ctxC5 st1C5).dedup.length ≤ 1 ∧
    st1C5.remaining.length = 2 ∧
    extractStep ctxC5 st1C5 = Except.ok st2C5 ∧
    st2C5.remaining ≠ [] :=
  ⟨by decide, by decide, rfl, by decide⟩

/-- C6: in the second iteration of the two-cluster scenario the only
remaining cluster is mask `1` (cluster B), yet the most-dissimilar list pairs
position 0 with `self.Blevel[0]`/`self.centroids[0]` — cluster A — and
returns `(2, 0)`, a row of cluster A that is not a row of cluster B, instead
of a row of cluster B farthest from B's centroid. -/
theorem c6_mispairing :
    extractStep ctxC4 st0C4 = Except.ok st1C4 ∧
    st1C4.remaining = [1] ∧
    mostDissimilars ctxC4 st1C4 = [[2, 0]] ∧
    (st0C4.Blevel.getD 1 ⟨0, [], [], none⟩).data =
      [[100, 100], [102, 100], [100, 102]] ∧
    ([2, 0] : List ℤ) ∉ (st0C4.Blevel.getD 1 ⟨0, [], [], none⟩).data :=
  ⟨rfl, by decide, by decide, by decide, by decide⟩

/-- Witness for C10: a two-cluster single-class dataset makes `fit` fail with
the unbound-local error. -/
theorem c10_witness :
    fit (⟨[0, 0], [[0]], [[0], [1]], [7, 7]⟩ : FitCtx ℤ) 5 dbTrivial =
      Except.error FitErr.unboundLocal :=
  c10_single_class_unbound ⟨[0, 0], [[0]], [[0], [1]], [7, 7]⟩ 5 dbTrivial
    (by decide) (by decide) (by decide)
